import Mathlib

/-!
A shallow embedding of the `baconjs-router` package (FoxSportsAustralia).
The repository ships two implementations of the router: `src/index.js` and an
alternate revision of the same module (referred to below as the variant B
implementation).  Both are embedded here: pure functions of the source become
Lean functions; the reactive pipeline (the Bacon.js history property with its
`doAction` side effect and `skipDuplicates` stage, the `flatMapLatest`
resolver and the `popstate` listener) becomes explicit state passing over
small state types, with the host browser modelled as an explicit action trace.
-/

set_option autoImplicit false

/-! ### Host string primitives

`decodeURIComponent`, `String.prototype.split`, `String.prototype.replace`
with a string pattern, and the route-splitting regular expression
`^([^?#]*)(?:\?([^#]*))?(?:#(.*))?$` are the only host string operations the
router uses.  They are modelled here with JavaScript semantics: percent
escapes must be two hex digits and the escaped bytes must form valid UTF-8
(otherwise `decodeURIComponent` throws, modelled as `none`); `split` with a
limit truncates the array of all fields; `replace` with a string pattern
replaces only the first occurrence, anywhere in the string. -/

/-- Value of one hexadecimal digit, upper or lower case, as accepted by the
host percent-decoder (48–57 are the digits, 65–70 and 97–102 the letters). -/
def hexVal (c : Char) : Option Nat :=
  let n := c.toNat
  if 48 ≤ n ∧ n ≤ 57 then some (n - 48)
  else if 65 ≤ n ∧ n ≤ 70 then some (n - 55)
  else if 97 ≤ n ∧ n ≤ 102 then some (n - 87)
  else none

/-- Decode a byte sequence as UTF-8, rejecting truncated, overlong, surrogate
and out-of-range sequences, as `decodeURIComponent` does. -/
def utf8Decode : List Nat → Option (List Char)
  | [] => some []
  | b :: r =>
    if b < 0x80 then
      (utf8Decode r).map (fun t => Char.ofNat b :: t)
    else if 0xC2 ≤ b ∧ b ≤ 0xDF then
      match r with
      | b1 :: r1 =>
        if 0x80 ≤ b1 ∧ b1 ≤ 0xBF then
          (utf8Decode r1).map (fun t => Char.ofNat ((b - 0xC0) * 0x40 + (b1 - 0x80)) :: t)
        else none
      | [] => none
    else if 0xE0 ≤ b ∧ b ≤ 0xEF then
      match r with
      | b1 :: b2 :: r2 =>
        if 0x80 ≤ b1 ∧ b1 ≤ 0xBF ∧ 0x80 ≤ b2 ∧ b2 ≤ 0xBF then
          let cp := (b - 0xE0) * 0x1000 + (b1 - 0x80) * 0x40 + (b2 - 0x80)
          if 0x800 ≤ cp ∧ ¬(0xD800 ≤ cp ∧ cp ≤ 0xDFFF) then
            (utf8Decode r2).map (fun t => Char.ofNat cp :: t)
          else none
        else none
      | _ => none
    else if 0xF0 ≤ b ∧ b ≤ 0xF4 then
      match r with
      | b1 :: b2 :: b3 :: r3 =>
        if 0x80 ≤ b1 ∧ b1 ≤ 0xBF ∧ 0x80 ≤ b2 ∧ b2 ≤ 0xBF ∧ 0x80 ≤ b3 ∧ b3 ≤ 0xBF then
          let cp := (b - 0xF0) * 0x40000 + (b1 - 0x80) * 0x1000 + (b2 - 0x80) * 0x40 + (b3 - 0x80)
          if 0x10000 ≤ cp ∧ cp ≤ 0x10FFFF then
            (utf8Decode r3).map (fun t => Char.ofNat cp :: t)
          else none
        else none
      | _ => none
    else none

/-- Worker for `decodeURIComponent`: literal characters pass through, maximal
runs of percent escapes are collected (in `acc`, reversed) and decoded as one
UTF-8 byte sequence.  A `%` not followed by two hex digits fails. -/
def decodeLoop : List Char → List Nat → Option (List Char)
  | [], acc => utf8Decode acc.reverse
  | '%' :: rest, acc =>
    match rest with
    | h :: l :: rest2 =>
      match hexVal h, hexVal l with
      | some hv, some lv => decodeLoop rest2 ((hv * 16 + lv) :: acc)
      | _, _ => none
    | _ => none
  | c :: rest, acc =>
    match utf8Decode acc.reverse, decodeLoop rest [] with
    | some flushed, some t => some (flushed ++ c :: t)
    | _, _ => none

/-- The host `decodeURIComponent`: `none` models a thrown `URIError`. -/
def decodeURIComponent (s : String) : Option String :=
  (decodeLoop s.toList []).map List.asString

/-- `String.prototype.split` on a one-character separator, on character
lists: the empty string splits to one empty field. -/
def jsSplitList (sep : Char) : List Char → List (List Char)
  | [] => [[]]
  | c :: r =>
    let rest := jsSplitList sep r
    if c = sep then [] :: rest
    else
      match rest with
      | h :: t => (c :: h) :: t
      | [] => [[c]]

/-- `String.prototype.split` on a one-character separator string. -/
def jsSplit (sep : Char) (s : String) : List String :=
  (jsSplitList sep s.toList).map List.asString

/-- Does `p` occur in `s` starting at offset `i`? -/
def occursAtCL (s p : List Char) (i : Nat) : Bool :=
  p.isPrefixOf (s.drop i)

/-- `String.prototype.indexOf` (first occurrence of `p` in `s`). -/
def strIndexOfCL (s p : List Char) : Option Nat :=
  if p.isPrefixOf s then some 0
  else
    match s with
    | [] => none
    | _ :: r => (strIndexOfCL r p).map (· + 1)

/-- `s.replace(p, '')` with a *string* pattern: deletes only the first
occurrence of `p`, wherever it is; returns `s` unchanged if `p` does not
occur. -/
def replaceFirstCL (s p : List Char) : List Char :=
  match strIndexOfCL s p with
  | none => s
  | some i => s.take i ++ s.drop (i + p.length)

/-- `s.replace(p, '')` on strings. -/
def replaceFirst (s p : String) : String :=
  (replaceFirstCL s.toList p.toList).asString

/-- JavaScript `x || d` on strings (empty string is falsy). -/
def jsOr (s d : String) : String := if s = "" then d else s

/-- JavaScript `x || d` where `x` is a string, `null` or `undefined`: absence
*and* the empty string are falsy and fall back to `d`. -/
def jsOrOpt (v : Option String) (d : String) : String :=
  match v with
  | none => d
  | some s => jsOr s d

/-- The route-relative string of `src/index.js`:
`location.replace(baseUrl, '') || '/'`. -/
def routeRelA (baseUrl loc : String) : String :=
  jsOr (replaceFirst loc baseUrl) "/"

/-- The route-relative string of the variant B implementation:
`location.replace(baseUrl, '')`, with no root default. -/
def routeRelB (baseUrl loc : String) : String :=
  replaceFirst loc baseUrl

/-- The route-splitting regular expression
`^([^?#]*)(?:\?([^#]*))?(?:#(.*))?$` applied to a character list: the path is
the longest prefix free of `?` and `#`; an optional `?`-introduced search part
stops before `#`; an optional `#`-introduced hash part takes the rest.
Missing groups default to the empty string (both implementations default
them). -/
def splitRouteCL (l : List Char) : List Char × List Char × List Char :=
  let path := l.takeWhile (fun c => !(c == '?') && !(c == '#'))
  let rest := l.dropWhile (fun c => !(c == '?') && !(c == '#'))
  match rest with
  | '?' :: r1 =>
    let search := r1.takeWhile (fun c => !(c == '#'))
    let r2 := r1.dropWhile (fun c => !(c == '#'))
    match r2 with
    | '#' :: h => (path, search, h)
    | _ => (path, search, [])
  | '#' :: h => (path, [], h)
  | _ => (path, [], [])

/-- The route splitter on strings, returning `(encodedPath, search, hash)`. -/
def splitRoute (s : String) : String × String × String :=
  let t := splitRouteCL s.toList
  (t.1.asString, t.2.1.asString, t.2.2.asString)

/-! ### JavaScript objects, query-string parsing and named parameters

A JavaScript object literal built by `Object.assign` is modelled as an
insertion-ordered association list whose values are `Option String`
(`none` models the value `undefined`: note that `Object.assign(acc, k:
undefined)` makes `k` an own property of `acc` holding `undefined`, which is
observably different from `k` being absent). -/

/-- Insertion-ordered JavaScript object with string-or-undefined values. -/
abbrev JsObj := List (String × Option String)

/-- `Object.assign(o, [k]: v)`: overwrite in place if the key exists, else
append, preserving property order. -/
def jsObjAssign (o : JsObj) (k : String) (v : Option String) : JsObj :=
  if o.any (fun kv => kv.1 == k) then
    o.map (fun kv => if kv.1 == k then (k, v) else kv)
  else o ++ [(k, v)]

/-- One step of the query-string reducer of both implementations:
empty segments are skipped; a segment is split on `=` with limit 2 (the host
`split` truncates, so a third `=`-separated field is lost); the at-most-two
fields are percent-decoded (a decode failure drops the pair); a pair whose
decoded key is the empty string is dropped; a segment with no `=` assigns its
decoded key the value `undefined`. -/
def parseQueryPair (acc : JsObj) (seg : String) : JsObj :=
  if seg = "" then acc
  else
    match (jsSplit '=' seg).take 2 with
    | [kRaw] =>
      match decodeURIComponent kRaw with
      | some k => if k = "" then acc else jsObjAssign acc k none
      | none => acc
    | [kRaw, vRaw] =>
      match decodeURIComponent kRaw, decodeURIComponent vRaw with
      | some k, some v => if k = "" then acc else jsObjAssign acc k (some v)
      | _, _ => acc
    | _ => acc

/-- `search.split('&').reduce(..., {})` of both implementations. -/
def parseQuery (search : String) : JsObj :=
  (jsSplit '&' search).foldl parseQueryPair []

/-- `keys.reduce((acc, name, index) => Object.assign(acc, name:
matches[index + 1]), {})`: zip the recorded parameter names against the
capture list; an index beyond the captures assigns `undefined` (the name is
still made a property). -/
def zipParamsAux (groups : List String) : List String → Nat → JsObj → JsObj
  | [], _, acc => acc
  | n :: ns, i, acc => zipParamsAux groups ns (i + 1) (jsObjAssign acc n (groups.get? i))

/-- The named-parameter object passed to a string-template handler. -/
def zipParams (keys groups : List String) : JsObj :=
  zipParamsAux groups keys 0 []

/-! ### The template compiler -/

/-- One compiled segment of a string template. -/
inductive TSeg
  | lit (s : String)
  | param (nm : String)
deriving DecidableEq

/-- Modelled from the spec: the template-compilation primitive
(the `path-to-regexp` dependency) is an external collaborator, out of
repository scope; section 4.1 of the design requires only that it turn a
string template into a matcher that extracts the named parameters, in order
of appearance, from a decoded path.  The model supports the template shapes
the routing layer exercises: `/`-separated literal segments and one-segment
named parameters written with a leading colon, a parameter matching one
nonempty segment. -/
def compileSeg (s : String) : TSeg :=
  match s.toList with
  | ':' :: nm => .param nm.asString
  | _ => .lit s

/-- The parameter names the compiler records, in order of appearance. -/
def p2rKeys (t : String) : List String :=
  (jsSplit '/' t).filterMap (fun s =>
    match s.toList with
    | ':' :: nm => some nm.asString
    | _ => none)

/-- Match compiled template segments against path segments, collecting the
parameter captures in order. -/
def matchSegs : List TSeg → List String → Option (List String)
  | [], [] => some []
  | .lit s :: tr, p :: pr => if p = s then matchSegs tr pr else none
  | .param _ :: tr, p :: pr =>
    if p = "" then none else (matchSegs tr pr).map (fun g => p :: g)
  | _, _ => none

/-- Execute a compiled template against a decoded path: `some` holds the
captures of the named parameters, `none` is no-match. -/
def p2rExec (t path : String) : Option (List String) :=
  matchSegs ((jsSplit '/' t).map compileSeg) (jsSplit '/' path)

/-! ### The route resolver of `src/index.js`

The `...routesAndReturns` rest argument is a flat list of JavaScript values.
A handler participates only through the arguments it is called with, so it is
modelled as an opaque identifier; a `RegExp` value participates only through
its `exec` method, modelled as a function from the string matched against to
`some (fullMatch, captureGroups)` or `none` (a capture group that did not
participate is `none` inside the list, JavaScript `undefined`). -/

/-- A JavaScript value appearing in the rest-argument list.  `undef` is the
value of an out-of-range array read. -/
inductive JsVal
  | str (s : String)
  | re (exec : String → Option (String × List (Option String)))
  | fn (id : Nat)
  | undef
  | other

/-- The arguments a matched handler is invoked with: a string-template entry
passes one context object, a pattern entry passes the capture groups
positionally. -/
inductive HandlerArgs
  | ctx (params : JsObj) (query : JsObj) (hash : String)
  | positional (groups : List (Option String))
deriving DecidableEq

/-- What one navigation resolves to: the handler of entry `entry` (a function
value `fn fid`) invoked with `args`; the inert `bacon.never()` sequence; the
per-navigation `bacon.Error` for a failed percent-decode; or an exception
thrown out of the `flatMapLatest` callback. -/
inductive NavOutcome
  | matched (entry : Nat) (fid : Nat) (args : HandlerArgs)
  | inert
  | errorMalformed
  | thrown (msg : String)
deriving DecidableEq

/-- The result of resolving one navigation, together with the trace of the
entries whose matcher was executed and of the templates passed to the
pattern compiler during this resolution. -/
structure ResolveResult where
  outcome : NavOutcome
  evaluated : List Nat
  compiles : List String
deriving DecidableEq

/-- The `for (let i = 0; i < routesAndReturns.length; i += 2)` loop of
`src/index.js`, at entry counter `k`: the handler slot is validated first
(`typeof routeReturns !== 'function'` throws), then a string route is
compiled (with the `route || '/'` root default) and executed against the
*decoded path*, a `RegExp` route is executed against the *raw* route-relative
string, and anything else throws; the first match returns the handler
invocation and the loop falls off the end into `bacon.never()`. -/
def loopA (path cr search hash : String) : List JsVal → Nat → ResolveResult
  | [], _ => ⟨.inert, [], []⟩
  | [_], _ => ⟨.thrown "baconRouter: Unexpected input", [], []⟩
  | r :: h :: rest, k =>
    match h with
    | .fn fid =>
      match r with
      | .str t =>
        let tmpl := jsOr t "/"
        match p2rExec tmpl path with
        | some groups =>
          ⟨.matched k fid (.ctx (zipParams (p2rKeys tmpl) groups) (parseQuery search) hash),
            [k], [tmpl]⟩
        | none =>
          let res := loopA path cr search hash rest (k + 1)
          ⟨res.outcome, k :: res.evaluated, tmpl :: res.compiles⟩
      | .re ex =>
        match ex cr with
        | some m => ⟨.matched k fid (.positional m.2), [k], []⟩
        | none =>
          let res := loopA path cr search hash rest (k + 1)
          ⟨res.outcome, k :: res.evaluated, res.compiles⟩
      | _ => ⟨.thrown "baconRouter: Unknown route test method", [], []⟩
    | _ => ⟨.thrown "baconRouter: Unexpected input", [], []⟩

/-- Resolve one navigation in `src/index.js`: strip the base URL (first
occurrence, with root default), split into path, search and hash, decode the
path (a failure is the per-navigation malformed-URL error, before any entry
is looked at), then run the entry loop. -/
def resolveA (args : List JsVal) (baseUrl loc : String) : ResolveResult :=
  let cr := routeRelA baseUrl loc
  let t := splitRoute cr
  match decodeURIComponent t.1 with
  | none => ⟨.errorMalformed, [], []⟩
  | some path => loopA path cr t.2.1 t.2.2 args 0

/-- The `flatMapLatest` stage maps every deduplicated history record location
to its own resolution; records are processed independently. -/
def runRouterA (args : List JsVal) (baseUrl : String) (locs : List String) :
    List ResolveResult :=
  locs.map (resolveA args baseUrl)

/-! ### Downstream (Bacon.js) semantics of an outcome

`flatMapLatest` subscribes the returned inner observable and forwards its
events; the end of an inner stream does not end the outer stream, which ends
only with its source — and the source is the bus-fed history property, which
never ends.  `bacon.never()` therefore contributes no value and no error
downstream; returning `new bacon.Error(..)` contributes exactly one error
event and the stream continues; an exception thrown inside the callback is
not caught by Bacon and escapes the pipeline. -/

/-- An event the resolver stage itself contributes downstream for one
navigation.  `next` stands for subscribing the matched handler result
sequence (whose own events are then forwarded). -/
inductive NavEvent
  | next (entry : Nat) (fid : Nat) (args : HandlerArgs)
  | errorValue (msg : String)
deriving DecidableEq

/-- Downstream events of one navigation outcome. -/
def navEvents : NavOutcome → List NavEvent
  | .matched e f a => [.next e f a]
  | .inert => []
  | .errorMalformed => [.errorValue "Malformed URL"]
  | .thrown _ => []

/-- The uncaught exception, if any, an outcome lets escape the pipeline. -/
def navThrows : NavOutcome → Option String
  | .thrown m => some m
  | _ => none

/-- Whether the outcome ends the router output stream: never — the output
ends only with its never-ending source. -/
def navEndsOutput : NavOutcome → Bool := fun _ => false

/-! ### The variant B implementation

The alternate revision builds the route table once, at construction time:
`chunk(routesAndReturns)` (the library `chunk` defaults to size 1, so every
produced chunk is a singleton) is mapped to per-entry closures, validating
shape and compiling string templates in the map; the per-navigation loop then
runs the closures.  In a string-entry closure the *path is decoded lazily*,
and a failure is thrown and caught by the loop, which wraps it in
`bacon.Error`. -/

/-- A compiled route entry of the variant B implementation (compilation state
is determined by the template string, so the template is retained). -/
inductive BEntry
  | strE (template : String) (fid : Nat)
  | reE (exec : String → Option (String × List (Option String))) (fid : Nat)

/-- The library `chunk(array)` with its default size of 1. -/
def chunkOne {α : Type} (l : List α) : List (List α) := l.map (fun a => [a])

/-- Build one entry from one chunk: `const [route, handler] = chunk` reads
the handler from index 1 (out of range on a singleton chunk, hence
`undefined`), validates `typeof handler === 'function'`, then dispatches on
the route shape. -/
def buildBEntry (c : List JsVal) : Except String BEntry :=
  match (c.drop 1).headD .undef with
  | .fn fid =>
    match c.headD .undef with
    | .str t => .ok (.strE t fid)
    | .re ex => .ok (.reE ex fid)
    | _ => .error "baconRouter: Unknown route test method"
  | _ => .error "baconRouter: Unexpected input"

/-- Construction of the variant B route table: runs at `baconRouter` call
time, before any stream exists; an `Except.error` models the exception
thrown to the constructing caller. -/
def constructB (args : List JsVal) : Except String (List BEntry) :=
  (chunkOne args).mapM buildBEntry

/-- The per-navigation loop of the variant B resolver over the compiled
entries.  `path?` is the result of decoding the encoded path (each
string-entry closure performs the decode; it is a pure function, computed
once here): a string entry first decodes, throwing the malformed-URL error
object, which the loop catches and returns as `bacon.Error`; a pattern entry
executes against the raw route-relative string. -/
def loopBEnt (path? : Option String) (cr search hash : String) :
    List BEntry → Nat → ResolveResult
  | [], _ => ⟨.inert, [], []⟩
  | .strE t fid :: rest, k =>
    match path? with
    | none => ⟨.errorMalformed, [k], []⟩
    | some path =>
      match p2rExec t path with
      | some groups =>
        ⟨.matched k fid (.ctx (zipParams (p2rKeys t) groups) (parseQuery search) hash),
          [k], []⟩
      | none =>
        let res := loopBEnt path? cr search hash rest (k + 1)
        ⟨res.outcome, k :: res.evaluated, res.compiles⟩
  | .reE ex fid :: rest, k =>
    match ex cr with
    | some m => ⟨.matched k fid (.positional m.2), [k], []⟩
    | none =>
      let res := loopBEnt path? cr search hash rest (k + 1)
      ⟨res.outcome, k :: res.evaluated, res.compiles⟩

/-- Resolve one navigation in the variant B implementation: strip the base
URL (no root default here), split, and run the compiled entries; no
compilation and no eager decode happens per navigation. -/
def resolveB (entries : List BEntry) (baseUrl loc : String) : ResolveResult :=
  let cr := routeRelB baseUrl loc
  let t := splitRoute cr
  loopBEnt (decodeURIComponent t.1) cr t.2.1 t.2.2 entries 0

/-! ### The history state stream

`bacon.update(seed, [historyBus], (previous, next) => next)` folds bus pushes
by replacement; `.doAction(...)` performs the host write for *every* fold
event; `.skipDuplicates(isEqual)` then drops an event deep-equal to the last
one it let through.  The browser host is modelled as an explicit state
(document title and current href) plus a trace of actions performed on it. -/

/-- One history record as pushed on the bus: all fields may be absent
(`undefined`/`null`).  Deep equality is structural equality. -/
structure HRecord where
  location : Option String
  state : Option String
  title : Option String
  shouldReplaceState : Option Bool
deriving DecidableEq

/-- The `thisHistory` object written into a navigation entry: title and
location already defaulted from the host. -/
structure HEntry where
  state : Option String
  title : String
  location : String
deriving DecidableEq

/-- The mutable host bits the router reads: `document.title` and
`location.href`. -/
structure HostState where
  docTitle : String
  href : String
deriving DecidableEq

/-- One externally visible action on the browser host. -/
inductive HostAction
  | writeTitle (t : String)
  | pushEntry (entry : HEntry) (title : Option String) (url : Option String)
  | replaceEntry (entry : HEntry) (title : Option String)
  | replaceEntryUrl (entry : HEntry) (title : Option String) (url : Option String)
  | reload
  | pushBus (r : HRecord)
deriving DecidableEq

/-- Is the action a replace-current-entry history write? -/
def HostAction.isReplaceWrite : HostAction → Bool
  | .replaceEntry _ _ => true
  | .replaceEntryUrl _ _ _ => true
  | _ => false

/-- The `doAction` side effect of `src/index.js`: skipped when paused or on a
non-browser host; otherwise the effective title (`title ||
window.document.title` — the JavaScript falsy default, so an absent *or
empty* record title falls back to the document title) and effective location
(`location || window.location.href`, likewise) are computed, the title
written, and one entry write performed — `replaceState(thisHistory, title)`
on the first ever write (setting `hasReplacedState`),
`pushState(thisHistory, title, location)` on every later one.  Returns the
action list, the new booted flag and the new host state (the stored href
keeps the current URL when the entry write carries no nonempty URL; relative
URL resolution is not modelled). -/
def doActionA (browser pause booted : Bool) (host : HostState) (r : HRecord) :
    List HostAction × Bool × HostState :=
  if pause || !browser then ([], booted, host)
  else
    let eT := jsOrOpt r.title host.docTitle
    let eL := jsOrOpt r.location host.href
    let entryRec : HEntry := ⟨r.state, eT, eL⟩
    if booted then
      ([.writeTitle eT, .pushEntry entryRec r.title r.location], true,
        ⟨eT, jsOrOpt r.location host.href⟩)
    else
      ([.writeTitle eT, .replaceEntry entryRec r.title], true, ⟨eT, host.href⟩)

/-- The `doAction` side effect of the variant B implementation: as in
`src/index.js` (including the falsy `||` defaulting of the effective title
and location), except that once booted a record with a truthy
`shouldReplaceState` performs `replaceState(thisHistory, title, location)`
instead of a push. -/
def doActionB (browser pause booted : Bool) (host : HostState) (r : HRecord) :
    List HostAction × Bool × HostState :=
  if pause || !browser then ([], booted, host)
  else
    let eT := jsOrOpt r.title host.docTitle
    let eL := jsOrOpt r.location host.href
    let entryRec : HEntry := ⟨r.state, eT, eL⟩
    if booted && r.shouldReplaceState.getD false then
      ([.writeTitle eT, .replaceEntryUrl entryRec r.title r.location], true,
        ⟨eT, jsOrOpt r.location host.href⟩)
    else if booted then
      ([.writeTitle eT, .pushEntry entryRec r.title r.location], true,
        ⟨eT, jsOrOpt r.location host.href⟩)
    else
      ([.writeTitle eT, .replaceEntry entryRec r.title], true, ⟨eT, host.href⟩)

/-- Pipeline state of the history property: the booted flag of the side
effect, the last record `skipDuplicates` emitted, and the host. -/
structure PipeState where
  booted : Bool
  lastEmitted : Option HRecord
  host : HostState
deriving DecidableEq

/-- Process one fold event of the `src/index.js` history property: run the
`doAction` stage (always), then the `skipDuplicates(isEqual)` stage, which
emits the record downstream only if it differs from the last emitted one.
Returns the host actions, the optional downstream emission and the new
pipeline state. -/
def pipeStepA (browser pause : Bool) (st : PipeState) (r : HRecord) :
    List HostAction × Option HRecord × PipeState :=
  let a := doActionA browser pause st.booted st.host r
  if st.lastEmitted = some r then
    (a.1, none, ⟨a.2.1, st.lastEmitted, a.2.2⟩)
  else
    (a.1, some r, ⟨a.2.1, some r, a.2.2⟩)

/-- Run the `src/index.js` history pipeline over a list of fold events (the
seed emission followed by the bus pushes), collecting the per-event host
action lists and the downstream emissions. -/
def runPipeA (browser pause : Bool) : PipeState → List HRecord →
    List (List HostAction) × List HRecord
  | _, [] => ([], [])
  | st, r :: rs =>
    let s := pipeStepA browser pause st r
    let rest := runPipeA browser pause s.2.2 rs
    (s.1 :: rest.1, s.2.1.toList ++ rest.2)

/-! ### The native navigation listener (`listenToPopState`)

`window.onpopstate` is replaced (keeping the original): an event without a
state payload reloads the page; one with a payload sets the module-level
pause flag, pushes a reconstructed record on the bus, writes the title
immediately and schedules (`setTimeout`) clearing the pause flag on a later
scheduler turn. -/

/-- The payload carried by a popstate notification (the state object this
router pushed earlier). -/
structure StateData where
  state : Option String
  title : Option String
  location : Option String
deriving DecidableEq

/-- A popstate notification; `payload = none` models a falsy `event.state`. -/
structure PopEvent where
  payload : Option StateData
deriving DecidableEq

/-- What the popstate handler did: the pause flag value when the handler
returns, the host actions performed synchronously, and whether a
clear-the-pause-flag task was scheduled for a later turn. -/
structure PopResult where
  pauseAfter : Bool
  actions : List HostAction
  deferredClear : Bool
deriving DecidableEq

/-- The `window.onpopstate` handler installed by `listenToPopState` (both
implementations are identical here).  The immediate title write is
`stateData.title || window.document.title` — the JavaScript falsy default,
so an absent *or empty* payload title writes the current document title
back. -/
def onPopState (pause : Bool) (docTitle : String) (ev : PopEvent) : PopResult :=
  match ev.payload with
  | none => ⟨pause, [.reload], false⟩
  | some sd =>
    ⟨true,
      [.pushBus ⟨sd.location, sd.state, sd.title, none⟩,
        .writeTitle (jsOrOpt sd.title docTitle)],
      true⟩

/-- The pause flag after the scheduled task (if any) has run. -/
def pauseAfterTick (r : PopResult) : Bool :=
  if r.deferredClear then false else r.pauseAfter

/-- The `window.onbeforeunload` handler: sets the pause flag, never clears
it. -/
def onBeforeUnload (_pause : Bool) : Bool := true

/-! ### A concrete pattern

`/(.+)\/detail/` as a concrete executable matcher: leftmost match start,
greedy one-or-more capture followed by the literal `/detail`, no end
anchor. -/

/-- Largest `g ≥ 1` such that `lit` occurs in `rest` at offset exactly `g`
(the greedy backtracking of `(.+)lit` from a fixed start). -/
def greedyLen (rest lit : List Char) : Nat → Option Nat
  | 0 => none
  | g + 1 => if lit.isPrefixOf (rest.drop (g + 1)) then some (g + 1) else greedyLen rest lit g

/-- Try to match `(.+)lit` at the start of `rest`. -/
def capPlusLitHere (lit rest : List Char) : Option (String × List (Option String)) :=
  match greedyLen rest lit (rest.length - lit.length) with
  | some g => some ((rest.take (g + lit.length)).asString, [some (rest.take g).asString])
  | none => none

/-- Scan for the leftmost start position. -/
def capPlusLitScan (lit : List Char) : List Char → Option (String × List (Option String))
  | [] => none
  | c :: r =>
    match capPlusLitHere lit (c :: r) with
    | some res => some res
    | none => capPlusLitScan lit r

/-- `exec` of the regular expression `(.+)` followed by the literal `lit`:
returns the full match and the single capture group. -/
def execCapPlusLit (lit : String) (s : String) : Option (String × List (Option String)) :=
  capPlusLitScan lit.toList s.toList

/-! ### Route tables as matcher/handler pairs -/

/-- Flatten a list of matcher/handler pairs into the flat rest-argument
list. -/
def flatPairs : List (JsVal × JsVal) → List JsVal
  | [] => []
  | (r, h) :: ps => r :: h :: flatPairs ps

/-- A well-formed route entry: the matcher is a string template or a
pattern, the handler is a function. -/
def PairOk (p : JsVal × JsVal) : Prop :=
  ((∃ t, p.1 = .str t) ∨ (∃ ex, p.1 = .re ex)) ∧ ∃ fid, p.2 = .fn fid

/-- Does an entry matcher match in `src/index.js` (string templates run
against the decoded path, patterns against the raw route-relative
string)? -/
def entryMatchesA (path cr : String) : JsVal → Bool
  | .str t => (p2rExec (jsOr t "/") path).isSome
  | .re ex => (ex cr).isSome
  | _ => false

/-- The handler arguments a matching entry produces in `src/index.js`. -/
def matchedArgsA (path cr search hash : String) : JsVal → Option HandlerArgs
  | .str t =>
    (p2rExec (jsOr t "/") path).map (fun groups =>
      .ctx (zipParams (p2rKeys (jsOr t "/")) groups) (parseQuery search) hash)
  | .re ex => (ex cr).map (fun m => .positional m.2)
  | _ => none

/-- The templates whose compilation one evaluated entry triggers. -/
def compileOfEntry : JsVal → List String
  | .str t => [jsOr t "/"]
  | _ => []

/-- Does a compiled variant B entry match (on a navigation whose path
decodes)? -/
def bEntryMatches (path cr : String) : BEntry → Bool
  | .strE t _ => (p2rExec t path).isSome
  | .reE ex _ => (ex cr).isSome

/-- The handler arguments a matching variant B entry produces. -/
def bMatchedArgs (path cr search hash : String) : BEntry → Option HandlerArgs
  | .strE t _ =>
    (p2rExec t path).map (fun groups =>
      .ctx (zipParams (p2rKeys t) groups) (parseQuery search) hash)
  | .reE ex _ => (ex cr).map (fun m => .positional m.2)

/-- The handler of a compiled variant B entry. -/
def bFid : BEntry → Nat
  | .strE _ f => f
  | .reE _ f => f

/-- The intended value of `zipParams`: each recorded name, in order, paired
with the capture at its index (`none`, JavaScript `undefined`, when the
capture list is too short). -/
def zipSpec (groups : List String) : List String → Nat → JsObj
  | [], _ => []
  | n :: ns, i => (n, groups.get? i) :: zipSpec groups ns (i + 1)

/-- Running the entry loop past a block of well-formed, non-matching pairs
evaluates each of their matchers once, compiles each string template afresh,
and continues with the rest of the argument list. -/
theorem loopA_skip (path cr search hash : String) (ps : List (JsVal × JsVal)) :
    ∀ (suffix : List JsVal) (k : Nat),
      (∀ p ∈ ps, PairOk p) →
      (∀ p ∈ ps, entryMatchesA path cr p.1 = false) →
      loopA path cr search hash (flatPairs ps ++ suffix) k =
        ⟨(loopA path cr search hash suffix (k + ps.length)).outcome,
          List.range' k ps.length ++
            (loopA path cr search hash suffix (k + ps.length)).evaluated,
          (ps.map (fun p => compileOfEntry p.1)).flatten ++
            (loopA path cr search hash suffix (k + ps.length)).compiles⟩ := by
  induction ps with
  | nil => intro suffix k _ _; simp [flatPairs, List.range']
  | cons p tl ih =>
    intro suffix k hok hnm
    obtain ⟨r, h⟩ := p
    obtain ⟨hm, fid, hfn⟩ := hok (r, h) (List.mem_cons_self _ _)
    have hnm0 := hnm (r, h) (List.mem_cons_self _ _)
    have hok' : ∀ p ∈ tl, PairOk p := fun p hp => hok p (List.mem_cons_of_mem _ hp)
    have hnm' : ∀ p ∈ tl, entryMatchesA path cr p.1 = false :=
      fun p hp => hnm p (List.mem_cons_of_mem _ hp)
    have hkl : k + 1 + tl.length = k + (tl.length + 1) := by omega
    rcases hm with ⟨t, ht⟩ | ⟨ex, hex⟩
    · simp only at ht hfn
      subst ht hfn
      simp only [entryMatchesA] at hnm0
      cases hpe : p2rExec (jsOr t "/") path with
      | some g => rw [hpe] at hnm0; simp at hnm0
      | none =>
        simp only [flatPairs, List.cons_append, loopA, hpe, List.append_eq]
        rw [ih suffix (k + 1) hok' hnm', hkl]
        simp [List.range'_succ, compileOfEntry]
    · simp only at hex hfn
      subst hex hfn
      simp only [entryMatchesA] at hnm0
      cases hpe : ex cr with
      | some m => rw [hpe] at hnm0; simp at hnm0
      | none =>
        simp only [flatPairs, List.cons_append, loopA, hpe, List.append_eq]
        rw [ih suffix (k + 1) hok' hnm', hkl]
        simp [List.range'_succ, compileOfEntry]

/-- When the head entry matches, the loop stops there: it returns the
handler invocation of that entry and evaluates nothing further. -/
theorem loopA_match_head (path cr search hash : String) (m : JsVal) (fid : Nat)
    (suffix : List JsVal) (k : Nat) (a : HandlerArgs)
    (hm : matchedArgsA path cr search hash m = some a) :
    loopA path cr search hash (m :: .fn fid :: suffix) k =
      ⟨.matched k fid a, [k], compileOfEntry m⟩ := by
  cases m with
  | str t =>
    simp only [matchedArgsA] at hm
    cases hpe : p2rExec (jsOr t "/") path with
    | none => rw [hpe] at hm; simp at hm
    | some g =>
      rw [hpe] at hm
      simp only [Option.map_some'] at hm
      cases hm
      simp [loopA, hpe, compileOfEntry]
  | re ex =>
    simp only [matchedArgsA] at hm
    cases hpe : ex cr with
    | none => rw [hpe] at hm; simp at hm
    | some mm =>
      rw [hpe] at hm
      simp only [Option.map_some'] at hm
      cases hm
      simp [loopA, hpe, compileOfEntry]
  | fn fid2 => simp [matchedArgsA] at hm
  | undef => simp [matchedArgsA] at hm
  | other => simp [matchedArgsA] at hm

/-- Unfold `resolveA` when the path decodes. -/
theorem resolveA_eq_loop (args : List JsVal) (baseUrl loc enc search hash path : String)
    (hsplit : splitRoute (routeRelA baseUrl loc) = (enc, search, hash))
    (hdec : decodeURIComponent enc = some path) :
    resolveA args baseUrl loc = loopA path (routeRelA baseUrl loc) search hash args 0 := by
  simp only [resolveA, hsplit, hdec]

/-- Unfold `resolveA` when the path fails to decode: the error is produced
before any entry is examined. -/
theorem resolveA_malformed (args : List JsVal) (baseUrl loc enc search hash : String)
    (hsplit : splitRoute (routeRelA baseUrl loc) = (enc, search, hash))
    (hdec : decodeURIComponent enc = none) :
    resolveA args baseUrl loc = ⟨.errorMalformed, [], []⟩ := by
  simp only [resolveA, hsplit, hdec]

/-- Unfold `resolveB` through the splitter. -/
theorem resolveB_eq_loop (entries : List BEntry) (baseUrl loc enc search hash : String)
    (hsplit : splitRoute (routeRelB baseUrl loc) = (enc, search, hash)) :
    resolveB entries baseUrl loc =
      loopBEnt (decodeURIComponent enc) (routeRelB baseUrl loc) search hash entries 0 := by
  simp only [resolveB, hsplit]

/-- The variant B loop also skips a block of non-matching entries, evaluating
each exactly once, and compiles nothing while doing so. -/
theorem loopBEnt_skip (path cr search hash : String) (pre : List BEntry) :
    ∀ (suffix : List BEntry) (k : Nat),
      (∀ e ∈ pre, bEntryMatches path cr e = false) →
      loopBEnt (some path) cr search hash (pre ++ suffix) k =
        ⟨(loopBEnt (some path) cr search hash suffix (k + pre.length)).outcome,
          List.range' k pre.length ++
            (loopBEnt (some path) cr search hash suffix (k + pre.length)).evaluated,
          (loopBEnt (some path) cr search hash suffix (k + pre.length)).compiles⟩ := by
  induction pre with
  | nil => intro suffix k _; simp [List.range']
  | cons e tl ih =>
    intro suffix k hnm
    have hnm0 := hnm e (List.mem_cons_self _ _)
    have hnm' : ∀ e ∈ tl, bEntryMatches path cr e = false :=
      fun e he => hnm e (List.mem_cons_of_mem _ he)
    have hkl : k + 1 + tl.length = k + (tl.length + 1) := by omega
    cases e with
    | strE t fid =>
      simp only [bEntryMatches] at hnm0
      cases hpe : p2rExec t path with
      | some g => rw [hpe] at hnm0; simp at hnm0
      | none =>
        simp only [List.cons_append, loopBEnt, hpe, List.append_eq]
        rw [ih suffix (k + 1) hnm', hkl]
        simp [List.range'_succ]
    | reE ex fid =>
      simp only [bEntryMatches] at hnm0
      cases hpe : ex cr with
      | some m => rw [hpe] at hnm0; simp at hnm0
      | none =>
        simp only [List.cons_append, loopBEnt, hpe, List.append_eq]
        rw [ih suffix (k + 1) hnm', hkl]
        simp [List.range'_succ]

/-- When the head variant B entry matches, its handler wins and nothing else
is evaluated. -/
theorem loopBEnt_match_head (path cr search hash : String) (e : BEntry)
    (suffix : List BEntry) (k : Nat) (a : HandlerArgs)
    (hm : bMatchedArgs path cr search hash e = some a) :
    loopBEnt (some path) cr search hash (e :: suffix) k =
      ⟨.matched k (bFid e) a, [k], []⟩ := by
  cases e with
  | strE t fid =>
    simp only [bMatchedArgs] at hm
    cases hpe : p2rExec t path with
    | none => rw [hpe] at hm; simp at hm
    | some g =>
      rw [hpe] at hm
      simp only [Option.map_some'] at hm
      cases hm
      simp [loopBEnt, hpe, bFid]
  | reE ex fid =>
    simp only [bMatchedArgs] at hm
    cases hpe : ex cr with
    | none => rw [hpe] at hm; simp at hm
    | some mm =>
      rw [hpe] at hm
      simp only [Option.map_some'] at hm
      cases hm
      simp [loopBEnt, hpe, bFid]

/-! ### First-occurrence characterisation of the replace primitive -/

/-- Occurrence at a successor offset in a cons list is occurrence at the
predecessor offset in the tail. -/
theorem occursAtCL_cons_succ (c : Char) (r p : List Char) (j : Nat) :
    occursAtCL (c :: r) p (j + 1) = occursAtCL r p j := rfl

/-- If `indexOf` finds nothing, the pattern occurs nowhere. -/
theorem strIndexOfCL_none (p : List Char) :
    ∀ s : List Char, strIndexOfCL s p = none → ∀ i, occursAtCL s p i = false := by
  intro s
  induction s with
  | nil =>
    intro h i
    rw [strIndexOfCL] at h
    cases hp : p.isPrefixOf [] with
    | true => rw [if_pos hp] at h; exact absurd h (by simp)
    | false => simp [occursAtCL, List.drop_nil, hp]
  | cons c r ih =>
    intro h i
    rw [strIndexOfCL] at h
    cases hp : p.isPrefixOf (c :: r) with
    | true => rw [if_pos hp] at h; exact absurd h (by simp)
    | false =>
      rw [if_neg (by simp [hp])] at h
      have hr : strIndexOfCL r p = none := by
        cases hx : strIndexOfCL r p with
        | none => rfl
        | some j => rw [hx] at h; simp at h
      cases i with
      | zero => simp [occursAtCL, hp]
      | succ j => rw [occursAtCL_cons_succ]; exact ih hr j

/-- If `indexOf` returns `i`, the pattern occurs at `i` and at no smaller
offset. -/
theorem strIndexOfCL_some (p : List Char) :
    ∀ (s : List Char) (i : Nat), strIndexOfCL s p = some i →
      occursAtCL s p i = true ∧ ∀ j < i, occursAtCL s p j = false := by
  intro s
  induction s with
  | nil =>
    intro i h
    rw [strIndexOfCL] at h
    cases hp : p.isPrefixOf [] with
    | true =>
      rw [if_pos hp] at h
      cases h
      exact ⟨by simp [occursAtCL, hp], fun j hj => absurd hj (by omega)⟩
    | false => rw [if_neg (by simp [hp])] at h; exact absurd h (by simp)
  | cons c r ih =>
    intro i h
    rw [strIndexOfCL] at h
    cases hp : p.isPrefixOf (c :: r) with
    | true =>
      rw [if_pos hp] at h
      cases h
      exact ⟨by simp [occursAtCL, hp], fun j hj => absurd hj (by omega)⟩
    | false =>
      rw [if_neg (by simp [hp])] at h
      cases hx : strIndexOfCL r p with
      | none => rw [hx] at h; simp at h
      | some j =>
        rw [hx] at h
        simp only [Option.map_some'] at h
        cases h
        obtain ⟨h1, h2⟩ := ih j hx
        refine ⟨by rwa [occursAtCL_cons_succ], ?_⟩
        intro j2 hj2
        cases j2 with
        | zero => simp [occursAtCL, hp]
        | succ j3 => rw [occursAtCL_cons_succ]; exact h2 j3 (by omega)

/-! ### Characterisation of the named-parameter object -/

/-- Assigning a fresh key appends it. -/
theorem jsObjAssign_fresh (o : JsObj) (k : String) (v : Option String)
    (h : o.any (fun kv => kv.1 == k) = false) :
    jsObjAssign o k v = o ++ [(k, v)] := by
  simp only [jsObjAssign, h]
  simp

/-- With distinct parameter names (the only case `path-to-regexp` produces),
the accumulator-based `zipParams` builds exactly the name-by-name zip. -/
theorem zipParamsAux_eq (groups : List String) (keys : List String) :
    ∀ (i : Nat) (acc : JsObj),
      keys.Nodup →
      (∀ n ∈ keys, acc.any (fun kv => kv.1 == n) = false) →
      zipParamsAux groups keys i acc = acc ++ zipSpec groups keys i := by
  induction keys with
  | nil => intro i acc _ _; simp [zipParamsAux, zipSpec]
  | cons n ns ih =>
    intro i acc hnd hfresh
    have hfresh0 := hfresh n (List.mem_cons_self _ _)
    rw [zipParamsAux, jsObjAssign_fresh acc n (groups.get? i) hfresh0]
    have hnd' : ns.Nodup := (List.nodup_cons.mp hnd).2
    have hnmem : n ∉ ns := (List.nodup_cons.mp hnd).1
    have hfresh' : ∀ m ∈ ns, (acc ++ [(n, groups.get? i)]).any (fun kv => kv.1 == m) = false := by
      intro m hm
      have h1 := hfresh m (List.mem_cons_of_mem _ hm)
      have h2 : n ≠ m := fun he => hnmem (he ▸ hm)
      simp only [List.any_append, h1, Bool.false_or, List.any_cons, List.any_nil, Bool.or_false]
      simpa using h2
    rw [ih (i + 1) (acc ++ [(n, groups.get? i)]) hnd' hfresh']
    simp [zipSpec]

/-- `zipParams` on distinct names is the plain positional zip; names beyond
the capture list are present and bound to `undefined`. -/
theorem zipParams_eq (keys groups : List String) (hnd : keys.Nodup) :
    zipParams keys groups = zipSpec groups keys 0 := by
  have := zipParamsAux_eq groups keys 0 [] hnd (by intro n _; simp)
  simpa [zipParams] using this

/-- Flattening pairs distributes over append. -/
theorem flatPairs_append (xs ys : List (JsVal × JsVal)) :
    flatPairs (xs ++ ys) = flatPairs xs ++ flatPairs ys := by
  induction xs with
  | nil => simp [flatPairs]
  | cons p tl ih => obtain ⟨r, h⟩ := p; simp [flatPairs, ih]

/-! ### Claim C1 -/

/-- C1: for every route table of well-formed matcher/handler pairs and every
navigation whose route-relative string parses (the encoded path
percent-decodes), the resolver invokes the handler of the first entry in
construction order whose matcher matches, with that entry's arguments,
evaluating exactly the matchers up to and including the winner and no later
entry; and when no entry matches, the resolution is the inert
`bacon.never()` sequence, which contributes no value event, no error event,
no uncaught exception and does not complete the router output.  The variant
B entry loop obeys the same discipline. -/
theorem c1_first_match_wins
    (baseUrl loc enc search hash path : String)
    (hsplit : splitRoute (routeRelA baseUrl loc) = (enc, search, hash))
    (hdec : decodeURIComponent enc = some path) :
    (∀ (pre post : List (JsVal × JsVal)) (m : JsVal) (fid : Nat) (a : HandlerArgs),
      (∀ p ∈ pre, PairOk p) →
      (∀ p ∈ pre, entryMatchesA path (routeRelA baseUrl loc) p.1 = false) →
      matchedArgsA path (routeRelA baseUrl loc) search hash m = some a →
      resolveA (flatPairs (pre ++ (m, .fn fid) :: post)) baseUrl loc =
        ⟨.matched pre.length fid a, List.range' 0 (pre.length + 1),
          (pre.map (fun p => compileOfEntry p.1)).flatten ++ compileOfEntry m⟩) ∧
    (∀ ps : List (JsVal × JsVal),
      (∀ p ∈ ps, PairOk p) →
      (∀ p ∈ ps, entryMatchesA path (routeRelA baseUrl loc) p.1 = false) →
      resolveA (flatPairs ps) baseUrl loc =
        ⟨.inert, List.range' 0 ps.length, (ps.map (fun p => compileOfEntry p.1)).flatten⟩ ∧
      navEvents .inert = [] ∧ navThrows .inert = none ∧ navEndsOutput .inert = false) ∧
    (∀ (preB postB : List BEntry) (e : BEntry) (a : HandlerArgs)
      (encB searchB hashB pathB : String),
      splitRoute (routeRelB baseUrl loc) = (encB, searchB, hashB) →
      decodeURIComponent encB = some pathB →
      (∀ x ∈ preB, bEntryMatches pathB (routeRelB baseUrl loc) x = false) →
      bMatchedArgs pathB (routeRelB baseUrl loc) searchB hashB e = some a →
      resolveB (preB ++ e :: postB) baseUrl loc =
        ⟨.matched preB.length (bFid e) a, List.range' 0 (preB.length + 1), []⟩) := by
  refine ⟨?_, ?_, ?_⟩
  · intro pre post m fid a hok hnm hma
    rw [resolveA_eq_loop _ baseUrl loc enc search hash path hsplit hdec]
    rw [flatPairs_append]
    rw [loopA_skip path (routeRelA baseUrl loc) search hash pre _ 0 hok hnm]
    simp only [flatPairs]
    rw [loopA_match_head path (routeRelA baseUrl loc) search hash m fid _ _ a hma]
    have hr : List.range' 0 pre.length ++ [pre.length] = List.range' 0 (pre.length + 1) := by
      have h := List.range'_append_1 0 pre.length 1
      simpa [Nat.add_comm] using h
    simp only [Nat.zero_add]
    rw [← hr]
  · intro ps hok hnm
    refine ⟨?_, rfl, rfl, rfl⟩
    rw [resolveA_eq_loop _ baseUrl loc enc search hash path hsplit hdec]
    have := loopA_skip path (routeRelA baseUrl loc) search hash ps [] 0 hok hnm
    simpa [loopA] using this
  · intro preB postB e a encB searchB hashB pathB hsplitB hdecB hnm hma
    rw [resolveB_eq_loop _ baseUrl loc encB searchB hashB hsplitB, hdecB]
    rw [loopBEnt_skip pathB (routeRelB baseUrl loc) searchB hashB preB _ 0 hnm]
    rw [loopBEnt_match_head pathB (routeRelB baseUrl loc) searchB hashB e _ _ a hma]
    have hr : List.range' 0 preB.length ++ [preB.length] = List.range' 0 (preB.length + 1) := by
      have h := List.range'_append_1 0 preB.length 1
      simpa [Nat.add_comm] using h
    simp only [Nat.zero_add]
    rw [← hr]

/-- C1 witness: a two-entry table where the second entry is the first match;
the resolver invokes handler 7, evaluates entries 0 and 1 only, and compiles
both templates. -/
theorem c1_witness :
    resolveA (flatPairs [(.str "/x", .fn 1), (.str "/about", .fn 7)]) "b" "b/about" =
      ⟨.matched 1 7 (.ctx [] [] ""), [0, 1], ["/x", "/about"]⟩ := by
  have h := (c1_first_match_wins "b" "b/about" "/about" "" "" "/about"
      (by decide) (by decide)).1
    [(.str "/x", .fn 1)] [] (.str "/about") 7 (.ctx [] [] "")
    (by
      intro p hp
      rw [List.mem_singleton] at hp
      subst hp
      exact ⟨Or.inl ⟨"/x", rfl⟩, 1, rfl⟩)
    (by
      intro p hp
      rw [List.mem_singleton] at hp
      subst hp
      decide)
    (by decide)
  simpa [compileOfEntry] using h

/-! ### Claim C2 -/

/-- C2 counterexample: the side effect stage (`doAction`) runs *before* the
deduplication stage (`skipDuplicates`), so pushing a record deep-equal to the
immediately preceding emitted record still performs the host-sink write (a
title write and a navigation-entry write) even though nothing is emitted
downstream — the second event below produces host actions and no emission. -/
theorem c2_counterexample :
    runPipeA true false ⟨false, none, ⟨"T", "H"⟩⟩
      [⟨some "b/p", none, none, none⟩, ⟨some "b/p", none, none, none⟩] =
    ([[.writeTitle "T", .replaceEntry ⟨none, "T", "b/p"⟩ none],
      [.writeTitle "T", .pushEntry ⟨none, "T", "b/p"⟩ none (some "b/p")]],
     [⟨some "b/p", none, none, none⟩]) ∧
    ([HostAction.writeTitle "T",
      .pushEntry ⟨none, "T", "b/p"⟩ none (some "b/p")] : List HostAction) ≠ [] := by
  decide

/-- C2 (amended): in an unpaused browser context, a push deep-equal to the
immediately preceding emitted record produces *no downstream emission* but
still performs the host-sink side effect — a title write followed by exactly
one navigation-entry write — because `doAction` precedes `skipDuplicates`; a
push that differs in any field performs the side effect *and* is emitted
downstream. -/
theorem c2_dedup_after_side_effect
    (st : PipeState) (r p : HRecord) (hlast : st.lastEmitted = some p) :
    (r = p →
      pipeStepA true false st r =
        ((doActionA true false st.booted st.host r).1, none,
          ⟨(doActionA true false st.booted st.host r).2.1, some p,
            (doActionA true false st.booted st.host r).2.2⟩)) ∧
    (r ≠ p →
      (pipeStepA true false st r).2.1 = some r ∧
      (pipeStepA true false st r).1 = (doActionA true false st.booted st.host r).1) ∧
    (∃ w, (doActionA true false st.booted st.host r).1 =
        [.writeTitle (jsOrOpt r.title st.host.docTitle), w] ∧
      (w = .pushEntry
          ⟨r.state, jsOrOpt r.title st.host.docTitle, jsOrOpt r.location st.host.href⟩
          r.title r.location ∨
       w = .replaceEntry
          ⟨r.state, jsOrOpt r.title st.host.docTitle, jsOrOpt r.location st.host.href⟩
          r.title)) := by
  refine ⟨?_, ?_, ?_⟩
  · intro he
    subst he
    simp [pipeStepA, hlast]
  · intro hne
    have hc : ¬(st.lastEmitted = some r) := by
      rw [hlast]
      intro h
      exact hne (Option.some_inj.mp h).symm
    simp [pipeStepA, hc]
  · cases hb : st.booted with
    | true =>
      refine ⟨.pushEntry
          ⟨r.state, jsOrOpt r.title st.host.docTitle, jsOrOpt r.location st.host.href⟩
          r.title r.location, ?_, Or.inl rfl⟩
      simp [doActionA, hb]
    | false =>
      refine ⟨.replaceEntry
          ⟨r.state, jsOrOpt r.title st.host.docTitle, jsOrOpt r.location st.host.href⟩
          r.title, ?_, Or.inr rfl⟩
      simp [doActionA, hb]

/-- C2 witness: a concrete duplicate push through the pipeline step: host
actions happen, nothing is emitted. -/
theorem c2_witness :
    pipeStepA true false ⟨true, some ⟨some "b/p", none, none, none⟩, ⟨"T", "H"⟩⟩
        ⟨some "b/p", none, none, none⟩ =
      ([.writeTitle "T", .pushEntry ⟨none, "T", "b/p"⟩ none (some "b/p")], none,
        ⟨true, some ⟨some "b/p", none, none, none⟩, ⟨"T", "b/p"⟩⟩) := by
  rw [(c2_dedup_after_side_effect
      ⟨true, some ⟨some "b/p", none, none, none⟩, ⟨"T", "H"⟩⟩
      ⟨some "b/p", none, none, none⟩ ⟨some "b/p", none, none, none⟩ rfl).1 rfl]
  decide

/-! ### Claim C3 -/

/-- C3 counterexample: in `src/index.js` a table containing a non-callable
handler in its second pair raises nothing at construction (construction does
not inspect the routes at all) and a navigation *is* resolved against it:
the first pair matches and its handler is invoked, the invalid pair is never
even validated. -/
theorem c3_counterexample :
    resolveA (flatPairs [(.str "", .fn 0), (.str "/x", .other)]) "b" "b/" =
      ⟨.matched 0 0 (.ctx [] [] ""), [0], ["/"]⟩ ∧
    navThrows (.matched 0 0 (.ctx [] [] "")) = none := by
  decide

/-- C3 (amended): in the variant B implementation the configuration error is
raised at construction time (with the size-1 chunking, construction of any
nonempty argument list throws it).  In `src/index.js` validation happens
during each navigation's resolution instead: a non-callable handler, or an
unknown matcher kind, raises the error as a per-navigation throw only when
its pair is reached before any matching entry; a table whose earlier entry
matches resolves navigations with no error ever raised. -/
theorem c3_validation_timing
    (baseUrl loc enc search hash path : String)
    (hsplit : splitRoute (routeRelA baseUrl loc) = (enc, search, hash))
    (hdec : decodeURIComponent enc = some path) :
    (∀ (pre post : List (JsVal × JsVal)) (bad : JsVal × JsVal),
      (∀ p ∈ pre, PairOk p) →
      (∀ p ∈ pre, entryMatchesA path (routeRelA baseUrl loc) p.1 = false) →
      (∀ fid, bad.2 ≠ .fn fid) →
      (resolveA (flatPairs (pre ++ bad :: post)) baseUrl loc).outcome =
        .thrown "baconRouter: Unexpected input") ∧
    (∀ (pre post : List (JsVal × JsVal)) (m : JsVal) (fid : Nat),
      (∀ p ∈ pre, PairOk p) →
      (∀ p ∈ pre, entryMatchesA path (routeRelA baseUrl loc) p.1 = false) →
      (∀ t, m ≠ .str t) → (∀ ex, m ≠ .re ex) →
      (resolveA (flatPairs (pre ++ (m, .fn fid) :: post)) baseUrl loc).outcome =
        .thrown "baconRouter: Unknown route test method") ∧
    (∀ (pre post : List (JsVal × JsVal)) (m : JsVal) (fid : Nat) (a : HandlerArgs),
      (∀ p ∈ pre, PairOk p) →
      (∀ p ∈ pre, entryMatchesA path (routeRelA baseUrl loc) p.1 = false) →
      matchedArgsA path (routeRelA baseUrl loc) search hash m = some a →
      (resolveA (flatPairs (pre ++ (m, .fn fid) :: post)) baseUrl loc).outcome =
        .matched pre.length fid a ∧
      navThrows (.matched pre.length fid a) = none) ∧
    (∀ (v : JsVal) (rest : List JsVal),
      constructB (v :: rest) = .error "baconRouter: Unexpected input") := by
  refine ⟨?_, ?_, ?_, ?_⟩
  · intro pre post bad hok hnm hbad
    obtain ⟨b1, b2⟩ := bad
    rw [resolveA_eq_loop _ baseUrl loc enc search hash path hsplit hdec, flatPairs_append,
      loopA_skip path (routeRelA baseUrl loc) search hash pre _ 0 hok hnm]
    simp only [flatPairs]
    cases b2 with
    | fn fid => exact absurd rfl (hbad fid)
    | str s => simp [loopA]
    | re ex => simp [loopA]
    | undef => simp [loopA]
    | other => simp [loopA]
  · intro pre post m fid hok hnm hns hnr
    rw [resolveA_eq_loop _ baseUrl loc enc search hash path hsplit hdec, flatPairs_append,
      loopA_skip path (routeRelA baseUrl loc) search hash pre _ 0 hok hnm]
    simp only [flatPairs]
    cases m with
    | str t => exact absurd rfl (hns t)
    | re ex => exact absurd rfl (hnr ex)
    | fn f2 => simp [loopA]
    | undef => simp [loopA]
    | other => simp [loopA]
  · intro pre post m fid a hok hnm hma
    refine ⟨?_, rfl⟩
    rw [resolveA_eq_loop _ baseUrl loc enc search hash path hsplit hdec, flatPairs_append,
      loopA_skip path (routeRelA baseUrl loc) search hash pre _ 0 hok hnm]
    simp only [flatPairs]
    rw [loopA_match_head path (routeRelA baseUrl loc) search hash m fid _ _ a hma]
    simp
  · intro v rest
    rfl

/-- C3 witness: an invalid pair reached before any match (here at position
zero, with a non-matching route ahead of nothing) throws the configuration
error during resolution; and variant B construction of the same argument
list fails at construction time. -/
theorem c3_witness :
    (resolveA (flatPairs [(.str "/x", .other)]) "b" "b/").outcome =
      .thrown "baconRouter: Unexpected input" ∧
    constructB [.str "/x", .other] = .error "baconRouter: Unexpected input" := by
  refine ⟨?_, ?_⟩
  · have h := (c3_validation_timing "b" "b/" "/" "" "" "/" (by decide) (by decide)).1
      [] [] (.str "/x", .other)
      (by intro p hp; simp at hp)
      (by intro p hp; simp at hp)
      (by intro fid h; exact JsVal.noConfusion h)
    simpa using h
  · exact (c3_validation_timing "b" "b/" "/" "" "" "/" (by decide) (by decide)).2.2.2
      (.str "/x") [.other]

/-! ### Claim C4 -/

/-- C4 counterexample: in the variant B implementation percent-decoding
happens only inside a string-template entry, so a navigation with an invalid
percent escape resolved against the empty table yields the inert sequence
and *no* MalformedURL error value, and resolved against a table whose first
entry is the catch-all pattern `(.*)` it invokes that handler — the
malformed path notwithstanding. -/
theorem c4_counterexample :
    decodeURIComponent "/%E0%A4%A" = none ∧
    constructB [] = .ok [] ∧
    resolveB [] "b" "b/%E0%A4%A" = ⟨.inert, [], []⟩ ∧
    navEvents .inert = [] ∧
    resolveB [.reE (fun s => some (s, [some s])) 4] "b" "b/%E0%A4%A" =
      ⟨.matched 0 4 (.positional [some "/%E0%A4%A"]), [0], []⟩ := by
  refine ⟨by decide, rfl, by decide, rfl, by decide⟩

/-- C4 (amended): in `src/index.js` the encoded path is decoded before the
entry loop, so every navigation whose path has an invalid percent escape
resolves — against any table — to a single `Malformed URL` error value on
the output, with no uncaught exception, without completing the output, and
with later navigations resolved independently.  In the variant B
implementation the decode happens inside the string-template branch: a
navigation that reaches a string entry surfaces the error there, but a
navigation that reaches none (for example against the empty table) surfaces
nothing. -/
theorem c4_malformed_url
    (args : List JsVal) (baseUrl loc enc search hash : String)
    (hsplit : splitRoute (routeRelA baseUrl loc) = (enc, search, hash))
    (hdec : decodeURIComponent enc = none) :
    resolveA args baseUrl loc = ⟨.errorMalformed, [], []⟩ ∧
    navEvents .errorMalformed = [.errorValue "Malformed URL"] ∧
    navThrows .errorMalformed = none ∧
    navEndsOutput .errorMalformed = false ∧
    (∀ locs, runRouterA args baseUrl (loc :: locs) =
      ⟨.errorMalformed, [], []⟩ :: runRouterA args baseUrl locs) ∧
    (∀ (t : String) (fid : Nat) (rest : List BEntry)
        (baseUrl2 loc2 enc2 s2 h2 : String),
      splitRoute (routeRelB baseUrl2 loc2) = (enc2, s2, h2) →
      decodeURIComponent enc2 = none →
      resolveB (.strE t fid :: rest) baseUrl2 loc2 = ⟨.errorMalformed, [0], []⟩) := by
  have hA := resolveA_malformed args baseUrl loc enc search hash hsplit hdec
  refine ⟨hA, rfl, rfl, rfl, ?_, ?_⟩
  · intro locs
    simp [runRouterA, hA]
  · intro t fid rest baseUrl2 loc2 enc2 s2 h2 hsplit2 hdec2
    rw [resolveB_eq_loop _ baseUrl2 loc2 enc2 s2 h2 hsplit2, hdec2]
    simp [loopBEnt]

/-- C4 witness: the malformed path of the spec example, against a nonempty
table in `src/index.js` and against a string-entry table in variant B. -/
theorem c4_witness :
    resolveA [.str "", .fn 0] "b" "b/%E0%A4%A" = ⟨.errorMalformed, [], []⟩ ∧
    resolveB [.strE "/x" 1] "b" "b/%E0%A4%A" = ⟨.errorMalformed, [0], []⟩ := by
  have h := c4_malformed_url [.str "", .fn 0] "b" "b/%E0%A4%A" "/%E0%A4%A" "" ""
    (by decide) (by decide)
  exact ⟨h.1, h.2.2.2.2.2 "/x" 1 [] "b" "b/%E0%A4%A" "/%E0%A4%A" "" "" (by decide) (by decide)⟩

/-! ### Claim C5 -/

/-- C5 counterexample: the query string of the spec example does *not* parse
to the three-key object — the segment `bad`, having no `=`, is not dropped
but becomes the own property `bad` holding `undefined`; and a value is not
allowed to contain `=`: `split('=', 2)` truncates, losing everything after
the second field. -/
theorem c5_counterexample :
    resolveA [.str "", .fn 0] "b" "b/?a=1&b=2&bad&c=3" =
      ⟨.matched 0 0
        (.ctx [] [("a", some "1"), ("b", some "2"), ("bad", none), ("c", some "3")] ""),
        [0], ["/"]⟩ ∧
    parseQuery "a=1&b=2&bad&c=3" ≠
      [("a", some "1"), ("b", some "2"), ("c", some "3")] ∧
    parseQuery "x=1=2" ≠ [("x", some "1=2")] := by
  decide

/-- C5 (amended): a matching string-template entry calls its handler with
`params`/`query`/`hash` where `params` assigns each recorded name, in order,
the capture at its position — a name whose capture is missing is *present*
and bound to `undefined`, not absent; `query` splits on `&`, splits each
non-empty segment on `=` keeping only the first two fields (so a value is
truncated at a second `=`), percent-decodes the fields, drops a pair whose
key or value fails to decode or whose decoded key is empty, and maps the key
of an `=`-less segment to `undefined`; in particular `a=1&b=2&bad&c=3`
parses to `a` 1, `b` 2, `bad` undefined, `c` 3. -/
theorem c5_string_match_context
    (baseUrl loc enc search hash path : String)
    (hsplit : splitRoute (routeRelA baseUrl loc) = (enc, search, hash))
    (hdec : decodeURIComponent enc = some path) :
    (∀ (pre post : List (JsVal × JsVal)) (t : String) (fid : Nat) (groups : List String),
      (∀ p ∈ pre, PairOk p) →
      (∀ p ∈ pre, entryMatchesA path (routeRelA baseUrl loc) p.1 = false) →
      p2rExec (jsOr t "/") path = some groups →
      (resolveA (flatPairs (pre ++ (.str t, .fn fid) :: post)) baseUrl loc).outcome =
        .matched pre.length fid
          (.ctx (zipParams (p2rKeys (jsOr t "/")) groups) (parseQuery search) hash)) ∧
    (∀ keys captures : List String, keys.Nodup →
      zipParams keys captures = zipSpec captures keys 0) ∧
    zipParams ["id", "x"] ["42"] = [("id", some "42"), ("x", none)] ∧
    parseQuery "a=1&b=2&bad&c=3" =
      [("a", some "1"), ("b", some "2"), ("bad", none), ("c", some "3")] ∧
    parseQuery "x=1=2" = [("x", some "1")] ∧
    (∀ (acc : JsObj) (seg kRaw vRaw : String),
      (jsSplit '=' seg).take 2 = [kRaw, vRaw] →
      (decodeURIComponent kRaw = none ∨ decodeURIComponent vRaw = none ∨
        decodeURIComponent kRaw = some "") →
      parseQueryPair acc seg = acc) := by
  refine ⟨?_, ?_, by decide, by decide, by decide, ?_⟩
  · intro pre post t fid groups hok hnm hpe
    have hma : matchedArgsA path (routeRelA baseUrl loc) search hash (.str t) =
        some (.ctx (zipParams (p2rKeys (jsOr t "/")) groups) (parseQuery search) hash) := by
      simp [matchedArgsA, hpe]
    rw [resolveA_eq_loop _ baseUrl loc enc search hash path hsplit hdec, flatPairs_append,
      loopA_skip path (routeRelA baseUrl loc) search hash pre _ 0 hok hnm]
    simp only [flatPairs]
    rw [loopA_match_head path (routeRelA baseUrl loc) search hash (.str t) fid _ _ _ hma]
    simp
  · intro keys captures hnd
    exact zipParams_eq keys captures hnd
  · intro acc seg kRaw vRaw hs hbad
    have hne : seg ≠ "" := by
      rintro rfl
      simp [jsSplit, jsSplitList] at hs
    rw [parseQueryPair, if_neg hne, hs]
    rcases hbad with hk | hv | hk0
    · simp [hk]
    · cases hdk : decodeURIComponent kRaw <;> simp [hv]
    · cases hdv : decodeURIComponent vRaw <;> simp [hk0, hdv]

/-- C5 witness: the root template against the example query string — the
handler receives the four-key query object. -/
theorem c5_witness :
    (resolveA (flatPairs [(.str "", .fn 0)]) "b" "b/?a=1&b=2&bad&c=3").outcome =
      .matched 0 0
        (.ctx (zipParams (p2rKeys (jsOr "" "/")) []) (parseQuery "a=1&b=2&bad&c=3") "") := by
  have h := (c5_string_match_context "b" "b/?a=1&b=2&bad&c=3" "/" "a=1&b=2&bad&c=3" "" "/"
      (by decide) (by decide)).1 [] [] "" 0 []
    (by intro p hp; simp at hp)
    (by intro p hp; simp at hp)
    (by decide)
  simpa using h

/-! ### Claim C6 -/

/-- C6 counterexample: the pattern `(.+)\/detail` matched against the raw
route-relative string `/items/7/detail` captures `/items/7` — with the
leading slash — so the handler's single positional argument is `/items/7`,
not `items/7`. -/
theorem c6_counterexample :
    execCapPlusLit "/detail" "/items/7/detail" =
      some ("/items/7/detail", [some "/items/7"]) ∧
    resolveA [.re (execCapPlusLit "/detail"), .fn 0] "b" "b/items/7/detail" =
      ⟨.matched 0 0 (.positional [some "/items/7"]), [0], []⟩ ∧
    (some "/items/7" : Option String) ≠ some "items/7" := by
  refine ⟨by decide, by decide, by decide⟩

/-- C6 (amended): a pattern entry is executed against the raw, undecoded
route-relative string (never the decoded path), and on a match the handler
is called positionally with all capture groups — the full match excluded —
in order; the pattern `(.+)\/detail` against `/items/7/detail` yields the
single positional argument `/items/7`. -/
theorem c6_pattern_raw_positional
    (baseUrl loc enc search hash path : String)
    (hsplit : splitRoute (routeRelA baseUrl loc) = (enc, search, hash))
    (hdec : decodeURIComponent enc = some path) :
    (∀ (pre post : List (JsVal × JsVal))
        (ex : String → Option (String × List (Option String)))
        (fid : Nat) (m : String × List (Option String)),
      (∀ p ∈ pre, PairOk p) →
      (∀ p ∈ pre, entryMatchesA path (routeRelA baseUrl loc) p.1 = false) →
      ex (routeRelA baseUrl loc) = some m →
      resolveA (flatPairs (pre ++ (.re ex, .fn fid) :: post)) baseUrl loc =
        ⟨.matched pre.length fid (.positional m.2), List.range' 0 (pre.length + 1),
          (pre.map (fun p => compileOfEntry p.1)).flatten⟩) ∧
    execCapPlusLit "/detail" "/items/7/detail" =
      some ("/items/7/detail", [some "/items/7"]) := by
  refine ⟨?_, by decide⟩
  intro pre post ex fid m hok hnm hex
  have hma : matchedArgsA path (routeRelA baseUrl loc) search hash (.re ex) =
      some (.positional m.2) := by
    simp [matchedArgsA, hex]
  rw [resolveA_eq_loop _ baseUrl loc enc search hash path hsplit hdec, flatPairs_append,
    loopA_skip path (routeRelA baseUrl loc) search hash pre _ 0 hok hnm]
  simp only [flatPairs]
  rw [loopA_match_head path (routeRelA baseUrl loc) search hash (.re ex) fid _ _ _ hma]
  have hr : List.range' 0 pre.length ++ [pre.length] = List.range' 0 (pre.length + 1) := by
    have h := List.range'_append_1 0 pre.length 1
    simpa [Nat.add_comm] using h
  simp only [Nat.zero_add]
  rw [← hr]
  simp [compileOfEntry]

/-- C6 witness: the concrete pattern entry, resolved through the router. -/
theorem c6_witness :
    resolveA (flatPairs [(.re (execCapPlusLit "/detail"), .fn 0)]) "b" "b/items/7/detail" =
      ⟨.matched 0 0 (.positional [some "/items/7"]), [0], []⟩ := by
  have h := (c6_pattern_raw_positional "b" "b/items/7/detail" "/items/7/detail" "" ""
      "/items/7/detail" (by decide) (by decide)).1
    [] [] (execCapPlusLit "/detail") 0 ("/items/7/detail", [some "/items/7"])
    (by intro p hp; simp at hp)
    (by intro p hp; simp at hp)
    (by decide)
  simpa using h

/-! ### Claim C7 -/

/-- C7 counterexample: in `src/index.js` each navigation recompiles the
string templates it examines — here two successive navigations each record a
fresh compilation of the (defaulted) root template, so compilation work does
happen on each navigation. -/
theorem c7_counterexample :
    (runRouterA [.str "", .fn 0] "b" ["b/one", "b/two"]).map ResolveResult.compiles =
      [["/"], ["/"]] ∧
    (["/"] : List String) ≠ ([] : List String) := by
  decide

/-- C7 (amended): in `src/index.js` string templates are *not* compiled once
at construction — construction does not look at the routes — but during each
navigation's resolution: every navigation with a parseable path resolved
against a table whose first entry is a string template records a fresh
compilation of that template. -/
theorem c7_per_navigation_compile (t : String) (fid : Nat) (rest : List JsVal)
    (baseUrl : String) :
    ∀ (loc enc search hash path : String),
      splitRoute (routeRelA baseUrl loc) = (enc, search, hash) →
      decodeURIComponent enc = some path →
      ((resolveA (.str t :: .fn fid :: rest) baseUrl loc).compiles).head? =
        some (jsOr t "/") := by
  intro loc enc search hash path hsplit hdec
  rw [resolveA_eq_loop _ baseUrl loc enc search hash path hsplit hdec]
  cases hpe : p2rExec (jsOr t "/") path <;> simp [loopA, hpe]

/-- C7 witness: two navigations against the same table, each compiling the
template afresh. -/
theorem c7_witness :
    ((resolveA [.str "", .fn 0] "b" "b/one").compiles).head? = some "/" ∧
    ((resolveA [.str "", .fn 0] "b" "b/two").compiles).head? = some "/" := by
  refine ⟨?_, ?_⟩
  · have h := c7_per_navigation_compile "" 0 [] "b" "b/one" "/one" "" "" "/one"
      (by decide) (by decide)
    simpa [jsOr] using h
  · have h := c7_per_navigation_compile "" 0 [] "b" "b/two" "/two" "" "" "/two"
      (by decide) (by decide)
    simpa [jsOr] using h

/-! ### Claim C8 -/

/-- C8 counterexample: in `src/index.js`, once booted, a record whose
`shouldReplaceState` flag is set is still written with a *push* — the flag
is ignored, there is no replace write. -/
theorem c8_counterexample :
    doActionA true false true ⟨"T0", "H0"⟩ ⟨some "L", none, some "T", some true⟩ =
      ([.writeTitle "T", .pushEntry ⟨none, "T", "L"⟩ (some "T") (some "L")], true,
        ⟨"T", "L"⟩) ∧
    ((doActionA true false true ⟨"T0", "H0"⟩ ⟨some "L", none, some "T", some true⟩).1.all
      (fun a => !a.isReplaceWrite)) = true := by
  decide

/-- C8 (amended): with the host sink available and the pause flag unset,
both implementations compute the effective title and location with the
JavaScript falsy default (`title || document.title`, `location ||
location.href` — an absent *or empty-string* field falls back to the host's
current value), write the title, and perform exactly one entry write: a
replace on the first-ever write, which also sets the booted flag.  Once
booted, the variant B implementation replaces when the record's
`shouldReplaceState` is set and pushes otherwise, while `src/index.js`
ignores `shouldReplaceState` and always pushes.  With the pause flag set or
without a browser host, nothing at all is written. -/
theorem c8_entry_write_rules (host : HostState) (r : HRecord) (booted : Bool) :
    doActionA true false false host r =
      ([.writeTitle (jsOrOpt r.title host.docTitle),
        .replaceEntry ⟨r.state, jsOrOpt r.title host.docTitle, jsOrOpt r.location host.href⟩
          r.title],
        true, ⟨jsOrOpt r.title host.docTitle, host.href⟩) ∧
    doActionA true false true host r =
      ([.writeTitle (jsOrOpt r.title host.docTitle),
        .pushEntry ⟨r.state, jsOrOpt r.title host.docTitle, jsOrOpt r.location host.href⟩
          r.title r.location],
        true, ⟨jsOrOpt r.title host.docTitle, jsOrOpt r.location host.href⟩) ∧
    doActionB true false false host r =
      ([.writeTitle (jsOrOpt r.title host.docTitle),
        .replaceEntry ⟨r.state, jsOrOpt r.title host.docTitle, jsOrOpt r.location host.href⟩
          r.title],
        true, ⟨jsOrOpt r.title host.docTitle, host.href⟩) ∧
    doActionB true false true host r =
      (if r.shouldReplaceState.getD false then
        ([.writeTitle (jsOrOpt r.title host.docTitle),
          .replaceEntryUrl
            ⟨r.state, jsOrOpt r.title host.docTitle, jsOrOpt r.location host.href⟩
            r.title r.location],
          true, ⟨jsOrOpt r.title host.docTitle, jsOrOpt r.location host.href⟩)
      else
        ([.writeTitle (jsOrOpt r.title host.docTitle),
          .pushEntry ⟨r.state, jsOrOpt r.title host.docTitle, jsOrOpt r.location host.href⟩
            r.title r.location],
          true, ⟨jsOrOpt r.title host.docTitle, jsOrOpt r.location host.href⟩)) ∧
    doActionA true false true host ⟨some "", none, some "", none⟩ =
      ([.writeTitle host.docTitle,
        .pushEntry ⟨none, host.docTitle, host.href⟩ (some "") (some "")],
        true, ⟨host.docTitle, host.href⟩) ∧
    doActionA true true booted host r = ([], booted, host) ∧
    doActionB true true booted host r = ([], booted, host) ∧
    doActionA false false booted host r = ([], booted, host) ∧
    doActionB false false booted host r = ([], booted, host) := by
  refine ⟨by simp [doActionA], by simp [doActionA], by simp [doActionB], ?_,
    by simp [doActionA, jsOrOpt, jsOr],
    by simp [doActionA], by simp [doActionB], by simp [doActionA], by simp [doActionB]⟩
  cases hs : r.shouldReplaceState.getD false <;> simp [doActionB, hs]

/-! ### Claim C9 -/

/-- C9: a back/forward notification without a payload forces a full reload
and pushes nothing onto the bus, leaving the pause flag alone; one with a
payload sets the pause flag, pushes the reconstructed record on the bus,
writes the title immediately (the payload title with the falsy default — an
absent or empty payload title writes the current document title back), and
leaves the pause flag set when the handler returns — it is cleared only by
the scheduled task on a later turn. -/
theorem c9_popstate (pause : Bool) (docTitle : String) (sd : StateData) :
    onPopState pause docTitle ⟨none⟩ = ⟨pause, [.reload], false⟩ ∧
    ((onPopState pause docTitle ⟨none⟩).actions.all
      (fun a => match a with | .pushBus _ => false | _ => true)) = true ∧
    pauseAfterTick (onPopState pause docTitle ⟨none⟩) = pause ∧
    onPopState pause docTitle ⟨some sd⟩ =
      ⟨true,
        [.pushBus ⟨sd.location, sd.state, sd.title, none⟩,
          .writeTitle (jsOrOpt sd.title docTitle)], true⟩ ∧
    onPopState pause docTitle ⟨some ⟨none, some "", none⟩⟩ =
      ⟨true,
        [.pushBus ⟨none, none, some "", none⟩, .writeTitle docTitle], true⟩ ∧
    (onPopState pause docTitle ⟨some sd⟩).pauseAfter = true ∧
    pauseAfterTick (onPopState pause docTitle ⟨some sd⟩) = false := by
  refine ⟨rfl, rfl, rfl, rfl, ?_, rfl, rfl⟩
  simp [onPopState, jsOrOpt, jsOr]

/-! ### Claim C10 -/

/-- C10 counterexample: in `src/index.js` the route-relative string is not
always the literal deletion result: when deleting the base path leaves the
empty string, the `|| '/'` default substitutes the root path, so the string
used for matching differs from the deletion result. -/
theorem c10_counterexample :
    routeRelA "b" "b" = "/" ∧ replaceFirst "b" "b" = "" ∧ ("/" : String) ≠ "" := by
  decide

/-- C10 (amended): the route-relative string is computed by deleting the
*first occurrence* of the base-path string anywhere in the location — plain
substring replacement, not an anchored prefix strip: with no occurrence the
location is unchanged, and a first occurrence mid-string is the one deleted.
The variant B implementation uses that deletion result directly; in
`src/index.js` an empty deletion result is defaulted to `/`. -/
theorem c10_base_strip (baseUrl loc : String) :
    (strIndexOfCL loc.toList baseUrl.toList = none →
      replaceFirst loc baseUrl = loc ∧
      routeRelB baseUrl loc = loc ∧
      routeRelA baseUrl loc = jsOr loc "/" ∧
      ∀ i, occursAtCL loc.toList baseUrl.toList i = false) ∧
    (∀ i, strIndexOfCL loc.toList baseUrl.toList = some i →
      occursAtCL loc.toList baseUrl.toList i = true ∧
      (∀ j < i, occursAtCL loc.toList baseUrl.toList j = false) ∧
      replaceFirst loc baseUrl =
        (loc.toList.take i ++ loc.toList.drop (i + baseUrl.toList.length)).asString ∧
      routeRelB baseUrl loc = replaceFirst loc baseUrl ∧
      routeRelA baseUrl loc = jsOr (replaceFirst loc baseUrl) "/") := by
  constructor
  · intro hnone
    have hd : strIndexOfCL loc.data baseUrl.data = none := hnone
    have hid : replaceFirst loc baseUrl = loc := by
      show (replaceFirstCL loc.data baseUrl.data).asString = loc
      rw [replaceFirstCL, hd]
      rfl
    refine ⟨hid, hid, by simp only [routeRelA, hid], strIndexOfCL_none _ _ hnone⟩
  · intro i hsome
    obtain ⟨h1, h2⟩ := strIndexOfCL_some _ _ i hsome
    have hd : strIndexOfCL loc.data baseUrl.data = some i := hsome
    refine ⟨h1, h2, ?_, rfl, rfl⟩
    show (replaceFirstCL loc.data baseUrl.data).asString = _
    rw [replaceFirstCL, hd]
    rfl

/-- C10 witness: the base path `/app` occurs mid-string in `/x/app/y` at
offset 2 and nowhere earlier; that occurrence is the one deleted. -/
theorem c10_witness :
    occursAtCL "/x/app/y".toList "/app".toList 2 = true ∧
    (∀ j < 2, occursAtCL "/x/app/y".toList "/app".toList j = false) ∧
    replaceFirst "/x/app/y" "/app" = "/x/y" := by
  have h := (c10_base_strip "/app" "/x/app/y").2 2 (by decide)
  exact ⟨h.1, h.2.1, by rw [h.2.2.1]; decide⟩
